import Mathlib

/-!
# The logging facade of `gocommons/log` (`commons.go`)

A shallow embedding of the package-level logging facade: the name-keyed
logger cache (`GetLogger`, `GetLoggerByConfigFile`, `FlushAll`), the active
logger indirection (`UseLogger`, `UseLoggerByName`), the forwarding
functions (`Debug` ... `Fatalf`, `Flush`, `SetAdditionalStackDepth`) and the
caller-location helper `getCallerInfo`.

Modelling conventions.

* A Go `Logger` interface value is either the nil interface or a reference to
  a logger object; two references are equal exactly when they denote the same
  object.
* The package state is the pair of globals `loggerCache` and `current`,
  together with a trace of every observable action the facade performs, in
  program order: factory invocations, diagnostics printed, method calls on
  loggers, writes to the cache, writes to `current`, and the mutex.
* A method call on the nil interface is a run-time panic; a function that
  panics yields `none`.  Methods of non-nil loggers are external: they return
  normally and do not touch the facade's globals.
* Execution is sequential.
-/

namespace GoLog

/-! ## Data model -/

/-- A value of the Go interface type `Logger`. -/
inductive Logger where
  /-- The nil interface value. -/
  | nil
  /-- The package-level `EmptyLogger = &emptyLogger{}`. -/
  | EmptyLogger
  /-- The `&consoleLogger{}` allocated by `init`. -/
  | consoleLogger
  /-- Any other logger object, identified by its address. -/
  | backend (addr : Nat)
  deriving DecidableEq, Repr

/-- The methods of the `Logger` interface, with their arguments. Variadic
`interface{}` arguments are kept as their rendered text. -/
inductive Method where
  | Debug (v : List String)
  | Info (v : List String)
  | Error (v : List String)
  | Warn (v : List String)
  | Fatal (v : List String)
  | Debugf (format : String) (params : List String)
  | Infof (format : String) (params : List String)
  | Errorf (format : String) (params : List String)
  | Warnf (format : String) (params : List String)
  | Fatalf (format : String) (params : List String)
  | SetAdditionalStackDepth (depth : Int)
  | Flush
  deriving DecidableEq, Repr

/-- One observable action of the facade. -/
inductive Event where
  /-- The statement `m.Lock()`. -/
  | lock
  /-- The deferred `m.Unlock()`. -/
  | unlock
  /-- An invocation `loggerCreator(name)`. -/
  | create (name : String)
  /-- A line written by `fmt.Printf`. -/
  | printf (text : String)
  /-- A method call `l.m(...)` on a non-nil logger. -/
  | call (l : Logger) (m : Method)
  /-- The assignment `loggerCache[name] = l`. -/
  | store (name : String) (l : Logger)
  /-- The assignment `current = l`. -/
  | setCurrent (l : Logger)
  deriving DecidableEq, Repr

/-- The package globals and the trace of actions performed so far. -/
structure State where
  loggerCache : List (String × Logger)
  current : Logger
  trace : List Event
  deriving DecidableEq, Repr

/-- What the facade takes from outside this file: the injectable factory
`loggerCreator` (its answer may depend on how many times it has been invoked
before, so it can be stateful or depend on the outside world), and the
platform's `filepath.IsAbs` and `filepath.Abs`. A Go `error` is `none` for
nil and `some text` otherwise. -/
structure Env where
  loggerCreator : Nat → String → Logger × Option String
  IsAbs : String → Bool
  Abs : String → String × Option String

/-- The package variable `defaultStackDepth`. -/
def defaultStackDepth : Int := 2

/-! ## The logger cache -/

/-- The map read `loggerCache[name]`, with its `exists` flag as `Option`. -/
def cacheGet (c : List (String × Logger)) (name : String) : Option Logger :=
  match c with
  | [] => none
  | (k, v) :: rest => if k = name then some v else cacheGet rest name

/-- The map without its binding of `name`, if it has one. -/
def cacheDrop (c : List (String × Logger)) (name : String) : List (String × Logger) :=
  match c with
  | [] => []
  | (k, v) :: rest => if k = name then cacheDrop rest name else (k, v) :: cacheDrop rest name

/-- The map write `loggerCache[name] = l`: any previous binding of `name` is
replaced. -/
def cacheSet (c : List (String × Logger)) (name : String) (l : Logger) :
    List (String × Logger) :=
  (name, l) :: cacheDrop c name

/-- Append one event to the trace. -/
def record (s : State) (e : Event) : State :=
  { s with trace := s.trace ++ [e] }

/-- The number of factory invocations recorded in a trace. -/
def creatorCalls (tr : List Event) : Nat :=
  match tr with
  | [] => 0
  | Event.create _ :: rest => creatorCalls rest + 1
  | _ :: rest => creatorCalls rest

/-- The number of factory invocations for one name recorded in a trace. -/
def creatorCallsFor (name : String) (tr : List Event) : Nat :=
  match tr with
  | [] => 0
  | Event.create n :: rest =>
    if n = name then creatorCallsFor name rest + 1 else creatorCallsFor name rest
  | _ :: rest => creatorCallsFor name rest

/-- A method call `l.m(...)`: a panic on the nil interface, otherwise the
call is performed. -/
def invoke (l : Logger) (m : Method) (s : State) : Option State :=
  match l with
  | Logger.nil => none
  | _ => some (record s (Event.call l m))

/-- The diagnostic of `GetLogger`: `"create logger %v failed. %s\n"`. -/
def createFailedText (name err : String) : String :=
  "create logger " ++ name ++ " failed. " ++ err ++ "\n"

/-- The function `GetLogger` (lines 38-59). -/
def GetLogger (env : Env) (name : String) (s : State) : Option (Logger × State) :=
  match cacheGet s.loggerCache name with
  | some logger => some (logger, s)
  | none =>
    let s1 := record s Event.lock
    match cacheGet s1.loggerCache name with
    | some logger => some (logger, record s1 Event.unlock)
    | none =>
      let r := env.loggerCreator (creatorCalls s1.trace) name
      let s2 := record s1 (Event.create name)
      let logger := match r.2 with
        | some _ => Logger.EmptyLogger
        | none => r.1
      let s3 := match r.2 with
        | some err => record s2 (Event.printf (createFailedText name err))
        | none => s2
      match invoke logger (Method.SetAdditionalStackDepth defaultStackDepth) s3 with
      | none => none
      | some s4 =>
        let s5 := record { s4 with loggerCache := cacheSet s4.loggerCache name logger }
          (Event.store name logger)
        some (logger, record s5 Event.unlock)

/-- The logger `GetLogger` is about to cache on a miss: the factory's result,
or `EmptyLogger` when the factory returned an error. -/
def created (env : Env) (name : String) (s : State) : Logger :=
  match (env.loggerCreator (creatorCalls s.trace) name).2 with
  | some _ => Logger.EmptyLogger
  | none => (env.loggerCreator (creatorCalls s.trace) name).1

/-- The diagnostics `GetLogger` prints on a miss: one line when the factory
returned an error, nothing otherwise. -/
def diagnostics (env : Env) (name : String) (s : State) : List Event :=
  match (env.loggerCreator (creatorCalls s.trace) name).2 with
  | some err => [Event.printf (createFailedText name err)]
  | none => []

/-- The state `GetLogger` leaves behind on a miss that returns normally. -/
def afterMiss (env : Env) (name : String) (s : State) : State :=
  { loggerCache := (name, created env name s) :: s.loggerCache
    current := s.current
    trace := s.trace ++ [Event.lock, Event.create name] ++ diagnostics env name s ++
      [Event.call (created env name s) (Method.SetAdditionalStackDepth 2),
       Event.store name (created env name s), Event.unlock] }

/-- The diagnostic of `GetLoggerByConfigFile`:
`"can not resolve logger config file %s: %s\n"`. -/
def resolveFailedText (path err : String) : String :=
  "can not resolve logger config file " ++ path ++ ": " ++ err ++ "\n"

/-- The function `GetLoggerByConfigFile` (lines 25-35). On a failed
resolution `path` has already been overwritten by the first result of
`filepath.Abs`, and that is the text printed. -/
def GetLoggerByConfigFile (env : Env) (path : String) (s : State) :
    Option (Logger × State) :=
  if env.IsAbs path = false then
    match (env.Abs path).2 with
    | some err =>
      some (Logger.EmptyLogger,
        record s (Event.printf (resolveFailedText (env.Abs path).1 err)))
    | none => GetLogger env (env.Abs path).1 s
  else GetLogger env path s

/-- The loop of `FlushAll` over the cache entries. Go leaves the iteration
order of a map unspecified; here it is the order of the list. -/
def flushEach (c : List (String × Logger)) (s : State) : Option State :=
  match c with
  | [] => some s
  | (_, logger) :: rest =>
    match invoke logger Method.Flush s with
    | none => none
    | some s1 => flushEach rest s1

/-- The function `FlushAll` (lines 61-65). -/
def FlushAll (s : State) : Option State :=
  flushEach s.loggerCache s

/-! ## The active logger -/

/-- The package globals before `init` runs: an empty map and a nil `current`. -/
def zeroState : State :=
  { loggerCache := [], current := Logger.nil, trace := [] }

/-- The function `init` (lines 139-142). -/
def init (s : State) : Option State :=
  let s1 := record { s with current := Logger.consoleLogger }
    (Event.setCurrent Logger.consoleLogger)
  invoke s1.current (Method.SetAdditionalStackDepth 3) s1

/-- The shared tail of `UseLoggerByName` and `UseLogger`:
`if current != nil { current.Flush() }; current = logger`. -/
def switchTo (logger : Logger) (s : State) : Option State :=
  match (if s.current ≠ Logger.nil then invoke s.current Method.Flush s else some s) with
  | none => none
  | some s1 => some (record { s1 with current := logger } (Event.setCurrent logger))

/-- The function `UseLoggerByName` (lines 144-155). The first component of
the result is the returned `error`. -/
def UseLoggerByName (env : Env) (name : String) (s : State) :
    Option (Option String × State) :=
  match GetLogger env name s with
  | none => none
  | some (logger, s1) =>
    if logger = Logger.nil then some (some ("can not get logger " ++ name), s1)
    else
      match switchTo logger s1 with
      | none => none
      | some s2 => some (none, s2)

/-- The function `UseLogger` (lines 157-168). The first component of the
result is the returned `error`. -/
def UseLogger (logger : Logger) (s : State) : Option (Option String × State) :=
  if logger = Logger.nil then some (some "logger can not be nil", s)
  else
    match switchTo logger s with
    | none => none
    | some s1 => some (none, s1)

/-! ## The forwarding functions -/

/-- The function `SetAdditionalStackDepth` (lines 170-172). -/
def SetAdditionalStackDepth (depth : Int) (s : State) : Option State :=
  invoke s.current (Method.SetAdditionalStackDepth depth) s

/-- The function `Debug`. -/
def Debug (v : List String) (s : State) : Option State :=
  invoke s.current (Method.Debug v) s

/-- The function `Info`. -/
def Info (v : List String) (s : State) : Option State :=
  invoke s.current (Method.Info v) s

/-- The function `Error`. -/
def Error (v : List String) (s : State) : Option State :=
  invoke s.current (Method.Error v) s

/-- The function `Warn`. -/
def Warn (v : List String) (s : State) : Option State :=
  invoke s.current (Method.Warn v) s

/-- The function `Fatal`. -/
def Fatal (v : List String) (s : State) : Option State :=
  invoke s.current (Method.Fatal v) s

/-- The function `Debugf`. -/
def Debugf (format : String) (args : List String) (s : State) : Option State :=
  invoke s.current (Method.Debugf format args) s

/-- The function `Infof`. -/
def Infof (format : String) (args : List String) (s : State) : Option State :=
  invoke s.current (Method.Infof format args) s

/-- The function `Errorf`. -/
def Errorf (format : String) (args : List String) (s : State) : Option State :=
  invoke s.current (Method.Errorf format args) s

/-- The function `Warnf`. -/
def Warnf (format : String) (args : List String) (s : State) : Option State :=
  invoke s.current (Method.Warnf format args) s

/-- The function `Fatalf`. -/
def Fatalf (format : String) (args : List String) (s : State) : Option State :=
  invoke s.current (Method.Fatalf format args) s

/-- The function `Flush` (lines 206-208). -/
def Flush (s : State) : Option State :=
  invoke s.current Method.Flush s

/-! ## Sequences of facade calls -/

/-- A call of one exported function of the facade. -/
inductive Op where
  | GetLoggerByConfigFile (path : String)
  | GetLogger (name : String)
  | FlushAll
  | UseLoggerByName (name : String)
  | UseLogger (logger : Logger)
  | SetAdditionalStackDepth (depth : Int)
  | Debug (v : List String)
  | Info (v : List String)
  | Error (v : List String)
  | Warn (v : List String)
  | Fatal (v : List String)
  | Debugf (format : String) (args : List String)
  | Infof (format : String) (args : List String)
  | Errorf (format : String) (args : List String)
  | Warnf (format : String) (args : List String)
  | Fatalf (format : String) (args : List String)
  | Flush
  deriving DecidableEq, Repr

/-- The state after one call that returns normally; `none` when it panics. -/
def step (env : Env) (op : Op) (s : State) : Option State :=
  match op with
  | Op.GetLoggerByConfigFile path => (GetLoggerByConfigFile env path s).map Prod.snd
  | Op.GetLogger name => (GetLogger env name s).map Prod.snd
  | Op.FlushAll => FlushAll s
  | Op.UseLoggerByName name => (UseLoggerByName env name s).map Prod.snd
  | Op.UseLogger logger => (UseLogger logger s).map Prod.snd
  | Op.SetAdditionalStackDepth depth => SetAdditionalStackDepth depth s
  | Op.Debug v => Debug v s
  | Op.Info v => Info v s
  | Op.Error v => Error v s
  | Op.Warn v => Warn v s
  | Op.Fatal v => Fatal v s
  | Op.Debugf format args => Debugf format args s
  | Op.Infof format args => Infof format args s
  | Op.Errorf format args => Errorf format args s
  | Op.Warnf format args => Warnf format args s
  | Op.Fatalf format args => Fatalf format args s
  | Op.Flush => Flush s

/-- The state after a sequence of calls, each of which returns normally. -/
def run (env : Env) (ops : List Op) (s : State) : Option State :=
  match ops with
  | [] => some s
  | op :: rest =>
    match step env op s with
    | none => none
    | some s1 => run env rest s1

/-- The cache key a call looks up, if it looks one up at all. -/
def lookedUp (env : Env) (op : Op) : Option String :=
  match op with
  | Op.GetLogger name => some name
  | Op.UseLoggerByName name => some name
  | Op.GetLoggerByConfigFile path =>
    if env.IsAbs path = false then
      match (env.Abs path).2 with
      | some _ => none
      | none => some (env.Abs path).1
    else some path
  | _ => none

/-- The calls that forward to a method of the active logger: `Debug`, `Info`,
`Warn`, `Error`, `Fatal`, their formatted variants, `Flush` and
`SetAdditionalStackDepth`. -/
def forwards (op : Op) : Bool :=
  match op with
  | Op.GetLoggerByConfigFile _ => false
  | Op.GetLogger _ => false
  | Op.FlushAll => false
  | Op.UseLoggerByName _ => false
  | Op.UseLogger _ => false
  | _ => true

/-- The state `init` leaves behind when run on the zero-valued globals. -/
def bootState : State :=
  { loggerCache := []
    current := Logger.consoleLogger
    trace := [Event.setCurrent Logger.consoleLogger,
      Event.call Logger.consoleLogger (Method.SetAdditionalStackDepth 3)] }

/-- A factory that builds a new backend logger on every invocation. -/
def freshEnv : Env :=
  { loggerCreator := fun k _ => (Logger.backend k, none)
    IsAbs := fun p => decide (p.data.head? = some '/')
    Abs := fun p => ("/srv/app/" ++ p, none) }

/-- A factory that always fails. -/
def failingEnv : Env :=
  { loggerCreator := fun _ _ => (Logger.nil, some "open conf: no such file")
    IsAbs := fun p => decide (p.data.head? = some '/')
    Abs := fun p => ("/srv/app/" ++ p, none) }

/-- A factory that returns a nil logger together with a nil error. -/
def nilEnv : Env :=
  { loggerCreator := fun _ _ => (Logger.nil, none)
    IsAbs := fun p => decide (p.data.head? = some '/')
    Abs := fun p => ("/srv/app/" ++ p, none) }

/-- A short session: two lookups, a switch by name, a log line, a flush. -/
def demoOps : List Op :=
  [Op.GetLogger "a", Op.UseLoggerByName "b", Op.Debug ["hi"], Op.FlushAll]

/-- The state `demoOps` leads to from `bootState` with `freshEnv`. -/
def demoState : State :=
  { loggerCache := [("b", Logger.backend 1), ("a", Logger.backend 0)]
    current := Logger.backend 1
    trace := [Event.setCurrent Logger.consoleLogger,
      Event.call Logger.consoleLogger (Method.SetAdditionalStackDepth 3),
      Event.lock, Event.create "a",
      Event.call (Logger.backend 0) (Method.SetAdditionalStackDepth 2),
      Event.store "a" (Logger.backend 0), Event.unlock,
      Event.lock, Event.create "b",
      Event.call (Logger.backend 1) (Method.SetAdditionalStackDepth 2),
      Event.store "b" (Logger.backend 1), Event.unlock,
      Event.call Logger.consoleLogger Method.Flush,
      Event.setCurrent (Logger.backend 1),
      Event.call (Logger.backend 1) (Method.Debug ["hi"]),
      Event.call (Logger.backend 1) Method.Flush,
      Event.call (Logger.backend 0) Method.Flush] }

/-- The trace and the cache agree on construction: the factory has been
invoked once for every cached name and never for any other name. -/
def Memoised (s : State) : Prop :=
  ∀ k, creatorCallsFor k s.trace = if cacheGet s.loggerCache k = none then 0 else 1

/-- A state reachable from process start: package initialisation, then
`init`, then any sequence of facade calls that return normally. -/
def Reachable (env : Env) (s : State) : Prop :=
  ∃ s0 ops, init zeroState = some s0 ∧ run env ops s0 = some s

/-! ## Caller location -/

/-- The elements of a path between its `/` separators. -/
def splitSlash (p : List Char) : List (List Char) :=
  match p with
  | [] => [[]]
  | c :: rest =>
    match splitSlash rest with
    | [] => [[]]
    | seg :: segs => if c = '/' then [] :: seg :: segs else (c :: seg) :: segs

/-- One element of `filepath.Clean`: empty and `.` elements are dropped, a
`..` removes the element before it when there is one to remove, is dropped at
the root, and is kept otherwise. `out` holds the elements kept so far, last
first. -/
def cleanStep (rooted : Bool) (out : List (List Char)) (seg : List Char) :
    List (List Char) :=
  if seg = [] ∨ seg = ['.'] then out
  else if seg = ['.', '.'] then
    match out with
    | top :: rest => if top = ['.', '.'] then seg :: out else rest
    | [] => if rooted then [] else [seg]
  else seg :: out

/-- The elements of a path joined by `/`. -/
def joinSlash (segs : List (List Char)) : List Char :=
  match segs with
  | [] => []
  | [seg] => seg
  | seg :: rest => seg ++ '/' :: joinSlash rest

/-- The library function `filepath.Clean` for `/`-separated paths, after its
documentation: the shortest equivalent path by purely lexical processing, `.`
for the empty result. A path is the list of its bytes. -/
def Clean (p : List Char) : List Char :=
  let rooted := decide (p.head? = some '/')
  let body := joinSlash ((splitSlash p).foldl (cleanStep rooted) []).reverse
  let out := if rooted then '/' :: body else body
  if out = [] then ['.'] else out

/-- The library function `filepath.Dir` for `/`-separated paths: everything
up to and including the last separator, cleaned. -/
def Dir (p : List Char) : List Char :=
  Clean (p.reverse.dropWhile (fun c => decide (c ≠ '/'))).reverse

/-- The value of a Go `int` expression on a 64-bit platform. -/
def wrapInt (x : Int) : Int :=
  (x + 2 ^ 63) % 2 ^ 64 - 2 ^ 63

/-- How a call of `getCallerInfo` ends. -/
inductive Outcome where
  /-- Normal return of a file name and a line. -/
  | ret (file : String) (line : Int)
  /-- Run-time panic: slice bounds out of range. -/
  | panic
  /-- The loop has not ended within the given number of iterations. -/
  | running
  deriving DecidableEq, Repr

/-- The `for` loop of `getCallerInfo` and the `return` after it (lines
120-133). `Caller k` is what `runtime.Caller(k)` reports: `none` for
`ok == false`, otherwise the file and the line. `fuel` bounds the number of
iterations. -/
def callerLoop (Caller : Int → Option (String × Int)) (fuel : Nat) (skip : Int) : Outcome :=
  match fuel with
  | 0 => Outcome.running
  | fuel1 + 1 =>
    match Caller (wrapInt (skip + 1)) with
    | none => Outcome.ret "???" 0
    | some (file, line) =>
      if file ≠ "<autogenerated>" then
        if (Dir file.data).length + 1 ≤ file.data.length then
          Outcome.ret (String.mk (file.data.drop ((Dir file.data).length + 1))) line
        else Outcome.panic
      else callerLoop Caller fuel1 (wrapInt (skip + 1))

/-- The function `getCallerInfo` (lines 109-134). -/
def getCallerInfo (Caller : Int → Option (String × Int)) (fuel : Nat) (skip : Int) : Outcome :=
  if skip = 0 then Outcome.ret "???" 0
  else callerLoop Caller fuel skip

/-- A call stack whose frame two levels up is line 10 of `/main.go`, a
source file in the root directory. -/
def rootStack (k : Int) : Option (String × Int) :=
  if k = 2 then some ("/main.go", 10) else none

/-- A call stack whose frame two levels up is line 10 of a file compiled
under `/home/dev/app`. -/
def nestedStack (k : Int) : Option (String × Int) :=
  if k = 2 then some ("/home/dev/app/main.go", 10) else none

/-- A call stack whose frame two levels up is a generated file that is
recorded without a directory, reached through one wrapper frame. -/
def bareStack (k : Int) : Option (String × Int) :=
  if k = 2 then some ("<autogenerated>", 1)
  else if k = 3 then some ("_cgo_gotypes.go", 45) else none

/-! ## Basic facts about the cache and the trace -/

theorem cacheGet_cacheDrop_ne (c : List (String × Logger)) (name k : String) (h : k ≠ name) :
    cacheGet (cacheDrop c name) k = cacheGet c k := by
  induction c with
  | nil => rfl
  | cons e rest ih =>
    obtain ⟨a, b⟩ := e
    by_cases ha : a = name
    · subst ha
      have hk : ¬ a = k := fun hh => h hh.symm
      simp only [cacheDrop, cacheGet, if_true, hk, if_false, ih]
    · by_cases hak : a = k
      · subst hak
        simp only [cacheDrop, cacheGet, ha, if_false, if_true]
      · simp only [cacheDrop, cacheGet, ha, hak, if_false, ih]

theorem cacheDrop_absent (c : List (String × Logger)) (name : String)
    (h : cacheGet c name = none) : cacheDrop c name = c := by
  induction c with
  | nil => rfl
  | cons e rest ih =>
    obtain ⟨a, b⟩ := e
    by_cases ha : a = name
    · simp [cacheGet, ha] at h
    · simp only [cacheGet, ha, if_false] at h
      simp [cacheDrop, ha, ih h]

theorem cacheSet_absent (c : List (String × Logger)) (name : String) (l : Logger)
    (h : cacheGet c name = none) : cacheSet c name l = (name, l) :: c := by
  simp [cacheSet, cacheDrop_absent c name h]

theorem cacheGet_cons_self (c : List (String × Logger)) (name : String) (l : Logger) :
    cacheGet ((name, l) :: c) name = some l := by
  simp [cacheGet]

theorem cacheGet_cons_ne (c : List (String × Logger)) (name k : String) (l : Logger)
    (h : k ≠ name) : cacheGet ((name, l) :: c) k = cacheGet c k := by
  have h1 : ¬ name = k := fun hh => h hh.symm
  simp [cacheGet, h1]

theorem creatorCalls_append (a b : List Event) :
    creatorCalls (a ++ b) = creatorCalls a + creatorCalls b := by
  induction a with
  | nil => simp [creatorCalls]
  | cons e rest ih =>
    cases e <;> simp [creatorCalls, ih]
    omega

theorem creatorCallsFor_append (name : String) (a b : List Event) :
    creatorCallsFor name (a ++ b) = creatorCallsFor name a + creatorCallsFor name b := by
  induction a with
  | nil => simp [creatorCallsFor]
  | cons e rest ih =>
    cases e with
    | create n =>
      by_cases hn : n = name
      · simp [creatorCallsFor, hn, ih]; omega
      · simp [creatorCallsFor, hn, ih]
    | _ => simp [creatorCallsFor, ih]

theorem invoke_nonnil (l : Logger) (m : Method) (s : State) (h : l ≠ Logger.nil) :
    invoke l m s = some (record s (Event.call l m)) := by
  cases l with
  | nil => exact absurd rfl h
  | _ => rfl

/-! ## What `GetLogger` does on a hit and on a miss -/

theorem GetLogger_hit (env : Env) (name : String) (s : State) (l : Logger)
    (h : cacheGet s.loggerCache name = some l) : GetLogger env name s = some (l, s) := by
  simp [GetLogger, h]

theorem GetLogger_miss (env : Env) (name : String) (s : State)
    (h : cacheGet s.loggerCache name = none) (hl : created env name s ≠ Logger.nil) :
    GetLogger env name s = some (created env name s, afterMiss env name s) := by
  unfold created at hl
  simp only [GetLogger, h, record, creatorCalls_append, creatorCalls, Nat.add_zero]
  cases hr : (env.loggerCreator (creatorCalls s.trace) name).2 with
  | some err =>
    simp [hr, invoke, record, afterMiss, created, diagnostics, cacheSet_absent _ _ _ h,
      defaultStackDepth]
  | none =>
    rw [hr] at hl
    simp only [] at hl
    simp [hr, invoke_nonnil _ _ _ hl, record, afterMiss, created, diagnostics,
      cacheSet_absent _ _ _ h, defaultStackDepth]

theorem GetLogger_miss_nil (env : Env) (name : String) (s : State)
    (h : cacheGet s.loggerCache name = none) (hl : created env name s = Logger.nil) :
    GetLogger env name s = none := by
  unfold created at hl
  simp only [GetLogger, h, record, creatorCalls_append, creatorCalls, Nat.add_zero]
  cases hr : (env.loggerCreator (creatorCalls s.trace) name).2 with
  | some err => rw [hr] at hl; simp at hl
  | none =>
    rw [hr] at hl
    simp only [] at hl
    simp [hr, hl, invoke]

theorem created_ne_nil (env : Env) (name : String) (s : State)
    (hf : (env.loggerCreator (creatorCalls s.trace) name).2 ≠ none ∨
      (env.loggerCreator (creatorCalls s.trace) name).1 ≠ Logger.nil) :
    created env name s ≠ Logger.nil := by
  unfold created
  cases hr : (env.loggerCreator (creatorCalls s.trace) name).2 with
  | some err => simp
  | none =>
    rw [hr] at hf
    simpa using hf

theorem created_of_error (env : Env) (name : String) (s : State) (err : String)
    (hf : (env.loggerCreator (creatorCalls s.trace) name).2 = some err) :
    created env name s = Logger.EmptyLogger := by
  simp [created, hf]

theorem diagnostics_of_error (env : Env) (name : String) (s : State) (err : String)
    (hf : (env.loggerCreator (creatorCalls s.trace) name).2 = some err) :
    diagnostics env name s = [Event.printf (createFailedText name err)] := by
  simp [diagnostics, hf]

theorem creatorCallsFor_diagnostics (env : Env) (name k : String) (s : State) :
    creatorCallsFor k (diagnostics env name s) = 0 := by
  unfold diagnostics
  cases (env.loggerCreator (creatorCalls s.trace) name).2 <;> simp [creatorCallsFor]

theorem creatorCallsFor_afterMiss (env : Env) (name : String) (s : State) :
    creatorCallsFor name (afterMiss env name s).trace = creatorCallsFor name s.trace + 1 := by
  simp [afterMiss, creatorCallsFor_append, creatorCallsFor, creatorCallsFor_diagnostics]

/-! ## How each call changes the cache and the active logger -/

theorem GetLogger_effect (env : Env) (n : String) (s s1 : State) (l : Logger)
    (h : GetLogger env n s = some (l, s1)) :
    (cacheGet s.loggerCache n = some l ∧ s1 = s) ∨
    (cacheGet s.loggerCache n = none ∧ l = created env n s ∧ l ≠ Logger.nil ∧
      s1 = afterMiss env n s) := by
  cases hc : cacheGet s.loggerCache n with
  | some l0 =>
    rw [GetLogger_hit env n s l0 hc] at h
    simp only [Option.some.injEq, Prod.mk.injEq] at h
    exact Or.inl ⟨by rw [h.1], h.2.symm⟩
  | none =>
    by_cases hl : created env n s = Logger.nil
    · rw [GetLogger_miss_nil env n s hc hl] at h
      exact absurd h (by simp)
    · rw [GetLogger_miss env n s hc hl] at h
      simp only [Option.some.injEq, Prod.mk.injEq] at h
      exact Or.inr ⟨rfl, h.1.symm, by rw [← h.1]; exact hl, h.2.symm⟩

theorem invoke_effect (l : Logger) (m : Method) (s s1 : State)
    (h : invoke l m s = some s1) : l ≠ Logger.nil ∧ s1 = record s (Event.call l m) := by
  cases l with
  | nil => simp [invoke] at h
  | _ => simp [invoke] at h; simp [h]

theorem invoke_frame (l : Logger) (m : Method) (s s1 : State)
    (h : invoke l m s = some s1) :
    s1.loggerCache = s.loggerCache ∧ s1.current = s.current := by
  rw [(invoke_effect l m s s1 h).2]
  simp [record]

theorem flushEach_frame (c : List (String × Logger)) (s s1 : State)
    (h : flushEach c s = some s1) :
    s1.loggerCache = s.loggerCache ∧ s1.current = s.current := by
  induction c generalizing s with
  | nil =>
    simp only [flushEach, Option.some.injEq] at h
    subst h
    exact ⟨rfl, rfl⟩
  | cons e rest ih =>
    obtain ⟨k, l⟩ := e
    simp only [flushEach] at h
    cases hi : invoke l Method.Flush s with
    | none => rw [hi] at h; exact absurd h (by simp)
    | some s2 =>
      rw [hi] at h
      have h1 := invoke_frame l Method.Flush s s2 hi
      have h2 := ih s2 h
      exact ⟨h2.1.trans h1.1, h2.2.trans h1.2⟩

theorem switchTo_frame (logger : Logger) (s s1 : State) (h : switchTo logger s = some s1) :
    s1.loggerCache = s.loggerCache ∧ s1.current = logger := by
  unfold switchTo at h
  by_cases hc : s.current = Logger.nil
  · simp only [hc, ne_eq, not_true_eq_false, if_false, Option.some.injEq] at h
    subst h
    simp [record]
  · rw [if_pos hc, invoke_nonnil _ _ _ hc] at h
    simp only [Option.some.injEq] at h
    subst h
    simp [record]

/-- How one call changes the cache: not at all, or by adding one binding,
for the key the call looks up, which was absent before. -/
theorem step_cache (env : Env) (op : Op) (s s1 : State) (h : step env op s = some s1) :
    s1.loggerCache = s.loggerCache ∨
    ∃ n l, lookedUp env op = some n ∧ cacheGet s.loggerCache n = none ∧
      s1.loggerCache = (n, l) :: s.loggerCache := by
  have getCase : ∀ (n : String) (r : Logger × State), GetLogger env n s = some r →
      r.2.loggerCache = s.loggerCache ∨
      ∃ l, cacheGet s.loggerCache n = none ∧ r.2.loggerCache = (n, l) :: s.loggerCache := by
    intro n r hr
    obtain ⟨l, s2⟩ := r
    rcases GetLogger_effect env n s s2 l hr with ⟨_, h2⟩ | ⟨h1, _, _, h4⟩
    · exact Or.inl (by rw [h2])
    · exact Or.inr ⟨created env n s, h1, by rw [h4]; rfl⟩
  have fwd : ∀ m, invoke s.current m s = some s1 → s1.loggerCache = s.loggerCache :=
    fun m hm => (invoke_frame _ m s s1 hm).1
  cases op with
  | GetLoggerByConfigFile path =>
    simp only [step, Option.map_eq_some'] at h
    obtain ⟨r, hr, hs⟩ := h
    unfold GetLoggerByConfigFile at hr
    by_cases ha : env.IsAbs path = false
    · rw [if_pos ha] at hr
      cases he : (env.Abs path).2 with
      | some err =>
        rw [he] at hr
        simp only [Option.some.injEq] at hr
        subst hr; subst hs
        exact Or.inl rfl
      | none =>
        rw [he] at hr
        simp only [] at hr
        rcases getCase _ r hr with h1 | ⟨l, h1, h2⟩
        · exact Or.inl (by rw [← hs]; exact h1)
        · refine Or.inr ⟨_, l, ?_, h1, by rw [← hs]; exact h2⟩
          simp [lookedUp, ha, he]
    · rw [if_neg ha] at hr
      rcases getCase _ r hr with h1 | ⟨l, h1, h2⟩
      · exact Or.inl (by rw [← hs]; exact h1)
      · refine Or.inr ⟨_, l, ?_, h1, by rw [← hs]; exact h2⟩
        simp [lookedUp, ha]
  | GetLogger name =>
    simp only [step, Option.map_eq_some'] at h
    obtain ⟨r, hr, hs⟩ := h
    rcases getCase _ r hr with h1 | ⟨l, h1, h2⟩
    · exact Or.inl (by rw [← hs]; exact h1)
    · exact Or.inr ⟨_, l, rfl, h1, by rw [← hs]; exact h2⟩
  | FlushAll => exact Or.inl (flushEach_frame _ s s1 h).1
  | UseLoggerByName name =>
    simp only [step, Option.map_eq_some'] at h
    obtain ⟨r, hr, hs⟩ := h
    unfold UseLoggerByName at hr
    cases hg : GetLogger env name s with
    | none => rw [hg] at hr; exact absurd hr (by simp)
    | some q =>
      obtain ⟨l, s2⟩ := q
      rw [hg] at hr
      simp only [] at hr
      have hq := getCase name (l, s2) hg
      have hcache : s1.loggerCache = s2.loggerCache := by
        by_cases hl : l = Logger.nil
        · rw [if_pos hl] at hr
          simp only [Option.some.injEq] at hr
          rw [← hs, ← hr]
        · rw [if_neg hl] at hr
          cases hsw : switchTo l s2 with
          | none => rw [hsw] at hr; exact absurd hr (by simp)
          | some s3 =>
            rw [hsw] at hr
            simp only [Option.some.injEq] at hr
            rw [← hs, ← hr]
            exact (switchTo_frame l s2 s3 hsw).1
      rcases hq with h1 | ⟨l0, h1, h2⟩
      · exact Or.inl (hcache.trans h1)
      · exact Or.inr ⟨_, l0, rfl, h1, hcache.trans h2⟩
  | UseLogger logger =>
    simp only [step, Option.map_eq_some'] at h
    obtain ⟨r, hr, hs⟩ := h
    unfold UseLogger at hr
    by_cases hl : logger = Logger.nil
    · rw [if_pos hl] at hr
      simp only [Option.some.injEq] at hr
      exact Or.inl (by rw [← hs, ← hr])
    · rw [if_neg hl] at hr
      cases hsw : switchTo logger s with
      | none => rw [hsw] at hr; exact absurd hr (by simp)
      | some s3 =>
        rw [hsw] at hr
        simp only [Option.some.injEq] at hr
        exact Or.inl (by rw [← hs, ← hr]; exact (switchTo_frame logger s s3 hsw).1)
  | SetAdditionalStackDepth depth => exact Or.inl (fwd _ h)
  | Debug v => exact Or.inl (fwd _ h)
  | Info v => exact Or.inl (fwd _ h)
  | Error v => exact Or.inl (fwd _ h)
  | Warn v => exact Or.inl (fwd _ h)
  | Fatal v => exact Or.inl (fwd _ h)
  | Debugf format args => exact Or.inl (fwd _ h)
  | Infof format args => exact Or.inl (fwd _ h)
  | Errorf format args => exact Or.inl (fwd _ h)
  | Warnf format args => exact Or.inl (fwd _ h)
  | Fatalf format args => exact Or.inl (fwd _ h)
  | Flush => exact Or.inl (fwd _ h)

/-- How one call changes the active logger: a non-nil active logger stays
non-nil. -/
theorem step_current (env : Env) (op : Op) (s s1 : State) (h : step env op s = some s1)
    (hc : s.current ≠ Logger.nil) : s1.current ≠ Logger.nil := by
  have getCase : ∀ (n : String) (r : Logger × State), GetLogger env n s = some r →
      r.2.current = s.current := by
    intro n r hr
    obtain ⟨l, s2⟩ := r
    rcases GetLogger_effect env n s s2 l hr with ⟨_, h2⟩ | ⟨_, _, _, h4⟩
    · rw [h2]
    · rw [h4]; rfl
  have fwd : ∀ m, invoke s.current m s = some s1 → s1.current ≠ Logger.nil :=
    fun m hm => by rw [(invoke_frame _ m s s1 hm).2]; exact hc
  cases op with
  | GetLoggerByConfigFile path =>
    simp only [step, Option.map_eq_some'] at h
    obtain ⟨r, hr, hs⟩ := h
    unfold GetLoggerByConfigFile at hr
    by_cases ha : env.IsAbs path = false
    · rw [if_pos ha] at hr
      cases he : (env.Abs path).2 with
      | some err =>
        rw [he] at hr
        simp only [Option.some.injEq] at hr
        subst hr; subst hs
        exact hc
      | none =>
        rw [he] at hr
        simp only [] at hr
        rw [← hs, getCase _ r hr]; exact hc
    · rw [if_neg ha] at hr
      rw [← hs, getCase _ r hr]; exact hc
  | GetLogger name =>
    simp only [step, Option.map_eq_some'] at h
    obtain ⟨r, hr, hs⟩ := h
    rw [← hs, getCase _ r hr]; exact hc
  | FlushAll => rw [(flushEach_frame _ s s1 h).2]; exact hc
  | UseLoggerByName name =>
    simp only [step, Option.map_eq_some'] at h
    obtain ⟨r, hr, hs⟩ := h
    unfold UseLoggerByName at hr
    cases hg : GetLogger env name s with
    | none => rw [hg] at hr; exact absurd hr (by simp)
    | some q =>
      obtain ⟨l, s2⟩ := q
      rw [hg] at hr
      simp only [] at hr
      have hq : s2.current = s.current := getCase name (l, s2) hg
      by_cases hl : l = Logger.nil
      · rw [if_pos hl] at hr
        simp only [Option.some.injEq] at hr
        rw [← hs, ← hr]
        show s2.current ≠ Logger.nil
        rw [hq]; exact hc
      · rw [if_neg hl] at hr
        cases hsw : switchTo l s2 with
        | none => rw [hsw] at hr; exact absurd hr (by simp)
        | some s3 =>
          rw [hsw] at hr
          simp only [Option.some.injEq] at hr
          rw [← hs, ← hr]
          show s3.current ≠ Logger.nil
          rw [(switchTo_frame l s2 s3 hsw).2]; exact hl
  | UseLogger logger =>
    simp only [step, Option.map_eq_some'] at h
    obtain ⟨r, hr, hs⟩ := h
    unfold UseLogger at hr
    by_cases hl : logger = Logger.nil
    · rw [if_pos hl] at hr
      simp only [Option.some.injEq] at hr
      rw [← hs, ← hr]; exact hc
    · rw [if_neg hl] at hr
      cases hsw : switchTo logger s with
      | none => rw [hsw] at hr; exact absurd hr (by simp)
      | some s3 =>
        rw [hsw] at hr
        simp only [Option.some.injEq] at hr
        rw [← hs, ← hr]
        show s3.current ≠ Logger.nil
        rw [(switchTo_frame logger s s3 hsw).2]; exact hl
  | SetAdditionalStackDepth depth => exact fwd _ h
  | Debug v => exact fwd _ h
  | Info v => exact fwd _ h
  | Error v => exact fwd _ h
  | Warn v => exact fwd _ h
  | Fatal v => exact fwd _ h
  | Debugf format args => exact fwd _ h
  | Infof format args => exact fwd _ h
  | Errorf format args => exact fwd _ h
  | Warnf format args => exact fwd _ h
  | Fatalf format args => exact fwd _ h
  | Flush => exact fwd _ h

theorem run_current (env : Env) (ops : List Op) (s s1 : State) (h : run env ops s = some s1)
    (hc : s.current ≠ Logger.nil) : s1.current ≠ Logger.nil := by
  induction ops generalizing s with
  | nil =>
    simp only [run, Option.some.injEq] at h
    rw [← h]; exact hc
  | cons op rest ih =>
    simp only [run] at h
    cases hs : step env op s with
    | none => rw [hs] at h; exact absurd h (by simp)
    | some s2 =>
      rw [hs] at h
      exact ih s2 h (step_current env op s s2 hs hc)

theorem run_cache (env : Env) (ops : List Op) (s s1 : State) (h : run env ops s = some s1) :
    (∀ k v, cacheGet s.loggerCache k = some v → cacheGet s1.loggerCache k = some v) ∧
    (∀ k, cacheGet s1.loggerCache k ≠ none →
      cacheGet s.loggerCache k ≠ none ∨ ∃ op, op ∈ ops ∧ lookedUp env op = some k) ∧
    (∃ added, s1.loggerCache = added ++ s.loggerCache) := by
  induction ops generalizing s with
  | nil =>
    simp only [run, Option.some.injEq] at h
    subst h
    exact ⟨fun _ _ hk => hk, fun _ hk => Or.inl hk, [], rfl⟩
  | cons op rest ih =>
    simp only [run] at h
    cases hs : step env op s with
    | none => rw [hs] at h; exact absurd h (by simp)
    | some s2 =>
      rw [hs] at h
      obtain ⟨i1, i2, added, i3⟩ := ih s2 h
      rcases step_cache env op s s2 hs with hsame | ⟨n, l, hlook, habs, hnew⟩
      · rw [hsame] at i1 i2 i3
        refine ⟨i1, ?_, added, i3⟩
        intro k hk
        rcases i2 k hk with h1 | ⟨o, ho, hl⟩
        · exact Or.inl h1
        · exact Or.inr ⟨o, List.mem_cons_of_mem _ ho, hl⟩
      · refine ⟨?_, ?_, added ++ [(n, l)], ?_⟩
        · intro k v hk
          apply i1
          rw [hnew]
          have hkn : k ≠ n := by
            intro hh
            rw [hh, habs] at hk
            exact absurd hk (by simp)
          rw [cacheGet_cons_ne _ _ _ _ hkn]
          exact hk
        · intro k hk
          rcases i2 k hk with h1 | ⟨o, ho, hl⟩
          · by_cases hkn : k = n
            · exact Or.inr ⟨op, List.mem_cons_self _ _, by rw [hkn]; exact hlook⟩
            · rw [hnew, cacheGet_cons_ne _ _ _ _ hkn] at h1
              exact Or.inl h1
          · exact Or.inr ⟨o, List.mem_cons_of_mem _ ho, hl⟩
        · rw [i3, hnew]
          simp

theorem init_zeroState : init zeroState = some bootState := rfl

theorem reachable_boot (env : Env) : Reachable env bootState :=
  ⟨bootState, [], init_zeroState, rfl⟩

/-! ## The factory is invoked once per cached name -/

theorem memoised_of_frame (s s1 : State) (hc : s1.loggerCache = s.loggerCache)
    (ht : ∀ k, creatorCallsFor k s1.trace = creatorCallsFor k s.trace)
    (hI : Memoised s) : Memoised s1 := by
  intro k
  rw [ht k, hc]
  exact hI k

theorem invoke_count (l : Logger) (m : Method) (s s1 : State) (h : invoke l m s = some s1)
    (k : String) : creatorCallsFor k s1.trace = creatorCallsFor k s.trace := by
  rw [(invoke_effect l m s s1 h).2]
  simp [record, creatorCallsFor_append, creatorCallsFor]

theorem flushEach_count (c : List (String × Logger)) (s s1 : State)
    (h : flushEach c s = some s1) (k : String) :
    creatorCallsFor k s1.trace = creatorCallsFor k s.trace := by
  induction c generalizing s with
  | nil =>
    simp only [flushEach, Option.some.injEq] at h
    rw [h]
  | cons e rest ih =>
    obtain ⟨k0, l⟩ := e
    simp only [flushEach] at h
    cases hi : invoke l Method.Flush s with
    | none => rw [hi] at h; exact absurd h (by simp)
    | some s2 =>
      rw [hi] at h
      exact (ih s2 h).trans (invoke_count l Method.Flush s s2 hi k)

theorem switchTo_count (logger : Logger) (s s1 : State) (h : switchTo logger s = some s1)
    (k : String) : creatorCallsFor k s1.trace = creatorCallsFor k s.trace := by
  unfold switchTo at h
  by_cases hc : s.current = Logger.nil
  · simp only [hc, ne_eq, not_true_eq_false, if_false, Option.some.injEq] at h
    subst h
    simp [record, creatorCallsFor_append, creatorCallsFor]
  · rw [if_pos hc, invoke_nonnil _ _ _ hc] at h
    simp only [Option.some.injEq] at h
    subst h
    simp [record, creatorCallsFor_append, creatorCallsFor]

theorem creatorCallsFor_afterMiss_ne (env : Env) (name k : String) (s : State)
    (h : k ≠ name) :
    creatorCallsFor k (afterMiss env name s).trace = creatorCallsFor k s.trace := by
  have h1 : ¬ name = k := fun hh => h hh.symm
  simp [afterMiss, creatorCallsFor_append, creatorCallsFor, creatorCallsFor_diagnostics, h1]

theorem GetLogger_memoised (env : Env) (n : String) (s s1 : State) (l : Logger)
    (h : GetLogger env n s = some (l, s1)) (hI : Memoised s) : Memoised s1 := by
  rcases GetLogger_effect env n s s1 l h with ⟨_, h2⟩ | ⟨h1, _, _, h4⟩
  · rw [h2]; exact hI
  · intro k
    rw [h4]
    by_cases hk : k = n
    · subst hk
      have h0 := hI k
      rw [h1] at h0
      simp only [if_true] at h0
      rw [creatorCallsFor_afterMiss, h0]
      simp [afterMiss, cacheGet]
    · rw [creatorCallsFor_afterMiss_ne env n k s hk]
      show creatorCallsFor k s.trace =
        if cacheGet ((n, created env n s) :: s.loggerCache) k = none then 0 else 1
      rw [cacheGet_cons_ne _ _ _ _ hk]
      exact hI k

/-- Every call that returns normally keeps trace and cache in agreement. -/
theorem step_memoised (env : Env) (op : Op) (s s1 : State) (h : step env op s = some s1)
    (hI : Memoised s) : Memoised s1 := by
  have fwd : ∀ m, invoke s.current m s = some s1 → Memoised s1 :=
    fun m hm => memoised_of_frame s s1 (invoke_frame _ m s s1 hm).1
      (invoke_count _ m s s1 hm) hI
  have sw : ∀ (l : Logger) (a b : State), switchTo l a = some b → Memoised a → Memoised b :=
    fun l a b hsw ha => memoised_of_frame a b (switchTo_frame l a b hsw).1
      (switchTo_count l a b hsw) ha
  cases op with
  | GetLoggerByConfigFile path =>
    simp only [step, Option.map_eq_some'] at h
    obtain ⟨r, hr, hs⟩ := h
    obtain ⟨l, s2⟩ := r
    simp only [] at hs
    subst hs
    unfold GetLoggerByConfigFile at hr
    by_cases ha : env.IsAbs path = false
    · rw [if_pos ha] at hr
      cases he : (env.Abs path).2 with
      | some err =>
        rw [he] at hr
        simp only [Option.some.injEq, Prod.mk.injEq] at hr
        rw [← hr.2]
        exact memoised_of_frame s _ rfl
          (fun k => by simp [record, creatorCallsFor_append, creatorCallsFor]) hI
      | none =>
        rw [he] at hr
        exact GetLogger_memoised env _ s _ l hr hI
    · rw [if_neg ha] at hr
      exact GetLogger_memoised env _ s _ l hr hI
  | GetLogger name =>
    simp only [step, Option.map_eq_some'] at h
    obtain ⟨r, hr, hs⟩ := h
    obtain ⟨l, s2⟩ := r
    simp only [] at hs
    subst hs
    exact GetLogger_memoised env _ s _ l hr hI
  | FlushAll =>
    exact memoised_of_frame s s1 (flushEach_frame _ s s1 h).1 (flushEach_count _ s s1 h) hI
  | UseLoggerByName name =>
    simp only [step, Option.map_eq_some'] at h
    obtain ⟨r, hr, hs⟩ := h
    unfold UseLoggerByName at hr
    cases hg : GetLogger env name s with
    | none => rw [hg] at hr; exact absurd hr (by simp)
    | some q =>
      obtain ⟨l, s2⟩ := q
      rw [hg] at hr
      simp only [] at hr
      have h2 : Memoised s2 := GetLogger_memoised env name s s2 l hg hI
      by_cases hl : l = Logger.nil
      · rw [if_pos hl] at hr
        simp only [Option.some.injEq] at hr
        rw [← hs, ← hr]
        exact h2
      · rw [if_neg hl] at hr
        cases hsw : switchTo l s2 with
        | none => rw [hsw] at hr; exact absurd hr (by simp)
        | some s3 =>
          rw [hsw] at hr
          simp only [Option.some.injEq] at hr
          rw [← hs, ← hr]
          exact sw l s2 s3 hsw h2
  | UseLogger logger =>
    simp only [step, Option.map_eq_some'] at h
    obtain ⟨r, hr, hs⟩ := h
    unfold UseLogger at hr
    by_cases hl : logger = Logger.nil
    · rw [if_pos hl] at hr
      simp only [Option.some.injEq] at hr
      rw [← hs, ← hr]
      exact hI
    · rw [if_neg hl] at hr
      cases hsw : switchTo logger s with
      | none => rw [hsw] at hr; exact absurd hr (by simp)
      | some s3 =>
        rw [hsw] at hr
        simp only [Option.some.injEq] at hr
        rw [← hs, ← hr]
        exact sw logger s s3 hsw hI
  | SetAdditionalStackDepth depth => exact fwd _ h
  | Debug v => exact fwd _ h
  | Info v => exact fwd _ h
  | Error v => exact fwd _ h
  | Warn v => exact fwd _ h
  | Fatal v => exact fwd _ h
  | Debugf format args => exact fwd _ h
  | Infof format args => exact fwd _ h
  | Errorf format args => exact fwd _ h
  | Warnf format args => exact fwd _ h
  | Fatalf format args => exact fwd _ h
  | Flush => exact fwd _ h

theorem run_memoised (env : Env) (ops : List Op) (s s1 : State) (h : run env ops s = some s1)
    (hI : Memoised s) : Memoised s1 := by
  induction ops generalizing s with
  | nil =>
    simp only [run, Option.some.injEq] at h
    rw [← h]; exact hI
  | cons op rest ih =>
    simp only [run] at h
    cases hs : step env op s with
    | none => rw [hs] at h; exact absurd h (by simp)
    | some s2 =>
      rw [hs] at h
      exact ih s2 h (step_memoised env op s s2 hs hI)

theorem reachable_memoised (env : Env) (s : State) (h : Reachable env s) : Memoised s := by
  obtain ⟨s0, ops, hinit, hrun⟩ := h
  rw [init_zeroState] at hinit
  simp only [Option.some.injEq] at hinit
  subst hinit
  refine run_memoised env ops bootState s hrun ?_
  intro k
  simp [bootState, creatorCallsFor, cacheGet]

theorem memoised_le_one (s : State) (h : Memoised s) (k : String) :
    creatorCallsFor k s.trace ≤ 1 := by
  rw [h k]
  split <;> omega

/-! ## Memoisation -/

/-- C1. With a factory that returns a non-nil logger or an error, two
successive calls `GetLogger n` from any state return the same logger; the
second call changes nothing at all (cache and trace are as the first call left
them), so the two calls together invoke the factory at most once; when the
state is reachable from process start, the factory has then been invoked for
`n` at most once since process start; and any call that finds `n` cached
returns the cached logger and leaves the whole state, cache and trace
included, unchanged. -/
theorem GetLogger_twice_same_instance (env : Env) (n : String) (s : State)
    (hf : ∀ k nm, (env.loggerCreator k nm).2 ≠ none ∨ (env.loggerCreator k nm).1 ≠ Logger.nil) :
    (∃ l s1, GetLogger env n s = some (l, s1) ∧ GetLogger env n s1 = some (l, s1) ∧
      creatorCallsFor n s1.trace ≤ creatorCallsFor n s.trace + 1 ∧
      creatorCalls s1.trace ≤ creatorCalls s.trace + 1 ∧
      (Reachable env s → creatorCallsFor n s1.trace ≤ 1)) ∧
    (∀ t l, cacheGet t.loggerCache n = some l →
      GetLogger env n t = some (l, t)) := by
  refine ⟨?_, fun t l h => GetLogger_hit env n t l h⟩
  cases h : cacheGet s.loggerCache n with
  | some l =>
    exact ⟨l, s, GetLogger_hit env n s l h, GetLogger_hit env n s l h, by omega, by omega,
      fun hr => memoised_le_one s (reachable_memoised env s hr) n⟩
  | none =>
    have hl := created_ne_nil env n s (hf _ _)
    have hg := GetLogger_miss env n s h hl
    refine ⟨created env n s, afterMiss env n s, hg, ?_, ?_, ?_, ?_⟩
    · exact GetLogger_hit env n _ _ (cacheGet_cons_self _ _ _)
    · rw [creatorCallsFor_afterMiss]
    · unfold afterMiss diagnostics
      cases (env.loggerCreator (creatorCalls s.trace) n).2 <;>
        simp [creatorCalls_append, creatorCalls]
    · intro hr
      exact memoised_le_one _
        (GetLogger_memoised env n s _ _ hg (reachable_memoised env s hr)) n

theorem GetLogger_twice_same_instance_witness :
    (∀ k nm, (freshEnv.loggerCreator k nm).2 ≠ none ∨
      (freshEnv.loggerCreator k nm).1 ≠ Logger.nil) ∧
    ((∃ l s1, GetLogger freshEnv "app" bootState = some (l, s1) ∧
        GetLogger freshEnv "app" s1 = some (l, s1) ∧
        creatorCallsFor "app" s1.trace ≤ creatorCallsFor "app" bootState.trace + 1 ∧
        creatorCalls s1.trace ≤ creatorCalls bootState.trace + 1 ∧
        (Reachable freshEnv bootState → creatorCallsFor "app" s1.trace ≤ 1)) ∧
      (∀ t l, cacheGet t.loggerCache "app" = some l →
        GetLogger freshEnv "app" t = some (l, t))) :=
  ⟨fun _ _ => Or.inr (by simp [freshEnv]),
    GetLogger_twice_same_instance freshEnv "app" bootState
      (fun _ _ => Or.inr (by simp [freshEnv]))⟩

/-! ## Failed construction -/

/-- C2. When the factory returns an error on the first lookup of `n`,
`GetLogger n` returns `EmptyLogger` (there is no error result), prints one
diagnostic, and stores `EmptyLogger` under `n`; after any later sequence of
facade calls, under any factory whatever (one that would now succeed
included), `GetLogger n` still returns `EmptyLogger` and leaves the state,
trace included, untouched, so the factory is not invoked again. -/
theorem failed_creation_is_cached_for_good (env : Env) (n : String) (s : State) (err : String)
    (hmiss : cacheGet s.loggerCache n = none)
    (hf : (env.loggerCreator (creatorCalls s.trace) n).2 = some err) :
    ∃ s1, GetLogger env n s = some (Logger.EmptyLogger, s1) ∧
      cacheGet s1.loggerCache n = some Logger.EmptyLogger ∧
      s1.trace = s.trace ++ [Event.lock, Event.create n,
        Event.printf (createFailedText n err),
        Event.call Logger.EmptyLogger (Method.SetAdditionalStackDepth 2),
        Event.store n Logger.EmptyLogger, Event.unlock] ∧
      ∀ (env1 : Env) (ops : List Op) (s2 : State), run env1 ops s1 = some s2 →
        GetLogger env1 n s2 = some (Logger.EmptyLogger, s2) := by
  have hc := created_of_error env n s err hf
  have hd := diagnostics_of_error env n s err hf
  have hg := GetLogger_miss env n s hmiss (by rw [hc]; simp)
  rw [hc] at hg
  have hcache : cacheGet (afterMiss env n s).loggerCache n = some Logger.EmptyLogger := by
    simp [afterMiss, hc, cacheGet]
  refine ⟨afterMiss env n s, hg, hcache, ?_, ?_⟩
  · simp [afterMiss, hc, hd]
  · intro env1 ops s2 hrun
    exact GetLogger_hit env1 n s2 _ ((run_cache env1 ops _ s2 hrun).1 n _ hcache)

theorem failed_creation_is_cached_for_good_witness :
    cacheGet bootState.loggerCache "audit" = none ∧
    (failingEnv.loggerCreator (creatorCalls bootState.trace) "audit").2 =
      some "open conf: no such file" ∧
    ∃ s1, GetLogger failingEnv "audit" bootState = some (Logger.EmptyLogger, s1) ∧
      cacheGet s1.loggerCache "audit" = some Logger.EmptyLogger ∧
      s1.trace = bootState.trace ++ [Event.lock, Event.create "audit",
        Event.printf (createFailedText "audit" "open conf: no such file"),
        Event.call Logger.EmptyLogger (Method.SetAdditionalStackDepth 2),
        Event.store "audit" Logger.EmptyLogger, Event.unlock] ∧
      ∀ (env1 : Env) (ops : List Op) (s2 : State), run env1 ops s1 = some s2 →
        GetLogger env1 "audit" s2 = some (Logger.EmptyLogger, s2) :=
  ⟨rfl, rfl, failed_creation_is_cached_for_good failingEnv "audit" bootState
    "open conf: no such file" rfl rfl⟩

/-! ## Switching the active logger -/

/-- C3. In every state `UseLogger nil` returns the error
`"logger can not be nil"` and leaves the state exactly as it was: the same
active logger, the same cache, and no event added to the trace (so no flush). -/
theorem UseLogger_nil_is_rejected (s : State) :
    UseLogger Logger.nil s = some (some "logger can not be nil", s) := by
  simp [UseLogger]

/-- C4. For a non-nil logger `B` and a state whose active logger `A` is
non-nil, `UseLogger B` returns a nil error, keeps the cache, makes `B` the
active logger, and performs exactly two actions, in this order: the call
`A.Flush()` and then the assignment `current = B`. -/
theorem UseLogger_flushes_then_installs (B : Logger) (s : State)
    (hB : B ≠ Logger.nil) (hA : s.current ≠ Logger.nil) :
    UseLogger B s = some (none,
      { loggerCache := s.loggerCache
        current := B
        trace := s.trace ++ [Event.call s.current Method.Flush, Event.setCurrent B] }) := by
  simp [UseLogger, hB, switchTo, hA, invoke_nonnil _ _ _ hA, record]

theorem UseLogger_flushes_then_installs_witness :
    Logger.backend 7 ≠ Logger.nil ∧ bootState.current ≠ Logger.nil ∧
    UseLogger (Logger.backend 7) bootState = some (none,
      { loggerCache := bootState.loggerCache
        current := Logger.backend 7
        trace := bootState.trace ++
          [Event.call bootState.current Method.Flush, Event.setCurrent (Logger.backend 7)] }) :=
  ⟨by decide, by decide,
    UseLogger_flushes_then_installs (Logger.backend 7) bootState (by decide) (by decide)⟩

/-- C5. For a name `n` that is not cached and for which the factory returns
an error, `UseLoggerByName n` returns a nil error; it first runs the failed
construction (diagnostic printed, `EmptyLogger` cached under `n`), then calls
`Flush` on the previously active logger (there is nothing to flush only when
`current` was nil), and last assigns `current = EmptyLogger`. -/
theorem UseLoggerByName_failed_factory (env : Env) (n : String) (s : State) (err : String)
    (hmiss : cacheGet s.loggerCache n = none)
    (hf : (env.loggerCreator (creatorCalls s.trace) n).2 = some err) :
    UseLoggerByName env n s = some (none,
      { loggerCache := (n, Logger.EmptyLogger) :: s.loggerCache
        current := Logger.EmptyLogger
        trace := s.trace ++ [Event.lock, Event.create n,
            Event.printf (createFailedText n err),
            Event.call Logger.EmptyLogger (Method.SetAdditionalStackDepth 2),
            Event.store n Logger.EmptyLogger, Event.unlock] ++
          (if s.current = Logger.nil then [] else [Event.call s.current Method.Flush]) ++
          [Event.setCurrent Logger.EmptyLogger] }) := by
  have hc := created_of_error env n s err hf
  have hd := diagnostics_of_error env n s err hf
  have hg := GetLogger_miss env n s hmiss (by rw [hc]; simp)
  rw [hc] at hg
  unfold UseLoggerByName
  rw [hg]
  by_cases hcur : s.current = Logger.nil
  · simp [switchTo, afterMiss, hc, hd, hcur, record]
  · simp [switchTo, afterMiss, hc, hd, hcur, invoke_nonnil _ _ _ hcur, record]

theorem UseLoggerByName_failed_factory_witness :
    cacheGet bootState.loggerCache "audit" = none ∧
    (failingEnv.loggerCreator (creatorCalls bootState.trace) "audit").2 =
      some "open conf: no such file" ∧
    UseLoggerByName failingEnv "audit" bootState = some (none,
      { loggerCache := [("audit", Logger.EmptyLogger)]
        current := Logger.EmptyLogger
        trace := bootState.trace ++ [Event.lock, Event.create "audit",
            Event.printf (createFailedText "audit" "open conf: no such file"),
            Event.call Logger.EmptyLogger (Method.SetAdditionalStackDepth 2),
            Event.store "audit" Logger.EmptyLogger, Event.unlock] ++
          [Event.call Logger.consoleLogger Method.Flush] ++
          [Event.setCurrent Logger.EmptyLogger] }) :=
  ⟨rfl, rfl, UseLoggerByName_failed_factory failingEnv "audit" bootState
    "open conf: no such file" rfl rfl⟩

/-! ## Invariants over sequences of calls -/

/-- C6. Along every sequence of facade calls that return normally
(`GetLogger`, `GetLoggerByConfigFile`, `UseLoggerByName`, `UseLogger`,
`FlushAll`, `SetAdditionalStackDepth`, the forwarding functions), a key that
is in the cache stays in it with the same logger; every key that is in the
cache afterwards was there before or is the key looked up by one of the
calls; and the cache only grows: the old bindings are all kept, new ones are
put in front. -/
theorem cache_bindings_are_permanent (env : Env) (ops : List Op) (s s1 : State)
    (h : run env ops s = some s1) :
    (∀ k v, cacheGet s.loggerCache k = some v → cacheGet s1.loggerCache k = some v) ∧
    (∀ k, cacheGet s1.loggerCache k ≠ none →
      cacheGet s.loggerCache k ≠ none ∨ ∃ op, op ∈ ops ∧ lookedUp env op = some k) ∧
    (∃ added, s1.loggerCache = added ++ s.loggerCache) :=
  run_cache env ops s s1 h

theorem cache_bindings_are_permanent_witness :
    run freshEnv demoOps bootState = some demoState ∧
    ((∀ k v, cacheGet bootState.loggerCache k = some v →
        cacheGet demoState.loggerCache k = some v) ∧
      (∀ k, cacheGet demoState.loggerCache k ≠ none →
        cacheGet bootState.loggerCache k ≠ none ∨
          ∃ op, op ∈ demoOps ∧ lookedUp freshEnv op = some k) ∧
      (∃ added, demoState.loggerCache = added ++ bootState.loggerCache)) :=
  ⟨rfl, cache_bindings_are_permanent freshEnv demoOps bootState demoState rfl⟩

/-- C7. In every state reachable from process start (`init`, then any
sequence of facade calls that return normally) the active logger is not nil,
and so each forwarding function (`Debug`, `Info`, `Warn`, `Error`, `Fatal`,
the formatted variants, `Flush`, `SetAdditionalStackDepth`) returns normally
from that state: none of them calls a method on a nil logger. -/
theorem active_logger_is_never_nil (env : Env) (s : State) (h : Reachable env s) :
    s.current ≠ Logger.nil ∧
    ∀ op, forwards op = true → ∃ s1, step env op s = some s1 := by
  obtain ⟨s0, ops, hinit, hrun⟩ := h
  have h0 : s0.current ≠ Logger.nil := by
    rw [init_zeroState] at hinit
    simp only [Option.some.injEq] at hinit
    rw [← hinit]
    decide
  have hc := run_current env ops s0 s hrun h0
  refine ⟨hc, ?_⟩
  intro op hop
  cases op <;> first
    | exact ⟨_, invoke_nonnil _ _ _ hc⟩
    | simp [forwards] at hop

theorem active_logger_is_never_nil_witness :
    Reachable freshEnv demoState ∧
    (demoState.current ≠ Logger.nil ∧
      ∀ op, forwards op = true → ∃ s1, step freshEnv op demoState = some s1) :=
  ⟨⟨bootState, demoOps, rfl, rfl⟩,
    active_logger_is_never_nil freshEnv demoState ⟨bootState, demoOps, rfl, rfl⟩⟩

/-! ## The default stack depth -/

/-- C9, as the claim states it, fails: with a factory that returns a nil
logger and a nil error, `GetLogger` on an uncached name panics at the call
`logger.SetAdditionalStackDepth(defaultStackDepth)`; it does not return, no
method is called on any logger, and nothing is cached. -/
theorem GetLogger_nil_factory_panics :
    cacheGet bootState.loggerCache "app" = none ∧
    GetLogger nilEnv "app" bootState = none ∧
    ¬ ∃ l s1, GetLogger nilEnv "app" bootState = some (l, s1) ∧
      Event.call l (Method.SetAdditionalStackDepth 2) ∈ s1.trace := by
  refine ⟨rfl, rfl, ?_⟩
  rintro ⟨l, s1, h, _⟩
  have h0 : GetLogger nilEnv "app" bootState = none := rfl
  rw [h0] at h
  exact absurd h (by simp)

/-- C9, amended. For a name that is not cached and a factory call that
returns a non-nil logger or an error, `GetLogger` returns the logger `l` it
caches (the factory's result, or `EmptyLogger` when the factory failed), and
what it does is exactly: lock, invoke the factory, print the diagnostic if
the factory failed, call `l.SetAdditionalStackDepth(2)` once, then store `l`
under the name, unlock. On a cache hit `GetLogger` returns the cached logger
and adds nothing to the trace, so it makes no `SetAdditionalStackDepth` call. -/
theorem GetLogger_sets_depth_then_caches (env : Env) (n : String) (s : State)
    (hmiss : cacheGet s.loggerCache n = none)
    (hf : (env.loggerCreator (creatorCalls s.trace) n).2 ≠ none ∨
      (env.loggerCreator (creatorCalls s.trace) n).1 ≠ Logger.nil) :
    (∃ s1, GetLogger env n s = some (created env n s, s1) ∧
      s1.trace = s.trace ++ [Event.lock, Event.create n] ++ diagnostics env n s ++
        [Event.call (created env n s) (Method.SetAdditionalStackDepth 2),
         Event.store n (created env n s), Event.unlock] ∧
      s1.loggerCache = (n, created env n s) :: s.loggerCache ∧
      s1.current = s.current) ∧
    (∀ t l, cacheGet t.loggerCache n = some l → GetLogger env n t = some (l, t)) :=
  ⟨⟨afterMiss env n s, GetLogger_miss env n s hmiss (created_ne_nil env n s hf), rfl, rfl, rfl⟩,
    fun t l h => GetLogger_hit env n t l h⟩

theorem GetLogger_sets_depth_then_caches_witness :
    cacheGet bootState.loggerCache "app" = none ∧
    ((freshEnv.loggerCreator (creatorCalls bootState.trace) "app").2 ≠ none ∨
      (freshEnv.loggerCreator (creatorCalls bootState.trace) "app").1 ≠ Logger.nil) ∧
    ((∃ s1, GetLogger freshEnv "app" bootState = some (Logger.backend 0, s1) ∧
      s1.trace = bootState.trace ++ [Event.lock, Event.create "app"] ++ [] ++
        [Event.call (Logger.backend 0) (Method.SetAdditionalStackDepth 2),
         Event.store "app" (Logger.backend 0), Event.unlock] ∧
      s1.loggerCache = ("app", Logger.backend 0) :: bootState.loggerCache ∧
      s1.current = bootState.current) ∧
    (∀ t l, cacheGet t.loggerCache "app" = some l →
      GetLogger freshEnv "app" t = some (l, t))) :=
  ⟨rfl, Or.inr (by decide),
    GetLogger_sets_depth_then_caches freshEnv "app" bootState rfl (Or.inr (by decide))⟩

/-! ## Caller location -/

/-- The ordinary case: for a file in a directory other than the root,
`getCallerInfo` returns the last element of the path. -/
theorem getCallerInfo_nested : getCallerInfo nestedStack 1 1 = Outcome.ret "main.go" 10 := by
  decide

/-- C8 at a failing input. The first non-opaque frame above the starting depth is
line 10 of `/main.go`; `getCallerInfo 1` returns `("ain.go", 10)`, not the
base name `main.go`: `filepath.Dir` is `/`, of length 1, and the code drops
one byte more than that. Likewise a file recorded without a directory,
`_cgo_gotypes.go`, whose `filepath.Dir` is `.`, comes back as
`go_gotypes.go`. -/
theorem getCallerInfo_root_file_loses_a_byte :
    rootStack (1 + 1) = some ("/main.go", 10) ∧
    getCallerInfo rootStack 1 1 = Outcome.ret "ain.go" 10 ∧
    getCallerInfo bareStack 2 1 = Outcome.ret "go_gotypes.go" 45 := by
  decide

end GoLog
